import Mathlib

/-!
Shallow embedding of the kingdom repository's math kernel
(`src/math/vec2.ts`, `vec3.ts`, `quat.ts`, `basis.ts`, `mat3.ts`, `mat4.ts`,
and the HSV color helpers of `server.ts`), together with theorems settling
the frozen claims about it.

JavaScript `number`s are modelled as real numbers (exact arithmetic); the
color helpers, which use only field operations and `%`, are modelled over ℚ.
Containers (`vec3`, `quat`, `basis`, `mat3`, `mat4`) are tuples.  Operations
whose `out` parameter is completely overwritten before any element of it is
read are embedded as pure functions of their inputs; operations for which the
identity or the prior contents of `out` matter (`basisOrthonormalize`,
`basisLerp`, `basisSlerp`, the aliased call patterns of `basisTranspose` and
`quatSlerp`) model `out` explicitly, following the source's statement order.
-/

/-- Embeds `EPSILON` from `src/math/utils.ts`. -/
def EPSILON : ℝ := 0.000001

/-- 2D vector `[x, y]` (`vec2.ts`). -/
abbrev vec2 : Type := ℝ × ℝ

/-- 3D vector `[x, y, z]` (`vec3.ts`). -/
abbrev vec3 : Type := ℝ × ℝ × ℝ

/-- Quaternion `[x, y, z, w]` (`quat.ts`). -/
abbrev quat : Type := ℝ × ℝ × ℝ × ℝ

/-- Basis: 3×3 matrix stored as three consecutive row (axis) vectors
`[x0,x1,x2, y0,y1,y2, z0,z1,z2]` (`basis.ts`). -/
abbrev basis : Type := ℝ × ℝ × ℝ × ℝ × ℝ × ℝ × ℝ × ℝ × ℝ

/-- 3×3 matrix, column-major order (`mat3.ts`). -/
abbrev mat3 : Type := ℝ × ℝ × ℝ × ℝ × ℝ × ℝ × ℝ × ℝ × ℝ

/-- 4×4 matrix, column-major order (`mat4.ts`). -/
abbrev mat4 : Type :=
  ℝ × ℝ × ℝ × ℝ × ℝ × ℝ × ℝ × ℝ × ℝ × ℝ × ℝ × ℝ × ℝ × ℝ × ℝ × ℝ

/-- Embeds `vec2Length` (`vec2.ts`). -/
noncomputable def vec2Length (v : vec2) : ℝ :=
  match v with
  | (x, y) => Real.sqrt (x * x + y * y)

/-- Embeds `vec2Normalize` (`vec2.ts`): zero-length input yields the zero vector,
otherwise divide by the length.  `out` is fully overwritten. -/
noncomputable def vec2Normalize (v : vec2) : vec2 :=
  match v with
  | (x, y) =>
    let len := Real.sqrt (x * x + y * y)
    if len = 0 then (0, 0) else (x / len, y / len)

/-- Embeds `vec3Length` (`vec3.ts`). -/
noncomputable def vec3Length (v : vec3) : ℝ :=
  match v with
  | (x, y, z) => Real.sqrt (x * x + y * y + z * z)

/-- Embeds `vec3Normalize` (`vec3.ts`): zero-length input yields the zero vector,
otherwise divide by the length.  `out` is fully overwritten. -/
noncomputable def vec3Normalize (v : vec3) : vec3 :=
  match v with
  | (x, y, z) =>
    let len := Real.sqrt (x * x + y * y + z * z)
    if len = 0 then (0, 0, 0) else (x / len, y / len, z / len)

/-- Embeds `vec3Dot` (`vec3.ts`). -/
def vec3Dot (a b : vec3) : ℝ :=
  match a, b with
  | (a0, a1, a2), (b0, b1, b2) => a0 * b0 + a1 * b1 + a2 * b2

/-- Embeds `vec3Cross` (`vec3.ts`).  `out` is fully overwritten. -/
def vec3Cross (a b : vec3) : vec3 :=
  match a, b with
  | (a0, a1, a2), (b0, b1, b2) =>
    (a1 * b2 - a2 * b1, a2 * b0 - a0 * b2, a0 * b1 - a1 * b0)

/-- Embeds `vec3Sub` (`vec3.ts`). -/
def vec3Sub (a b : vec3) : vec3 :=
  match a, b with
  | (a0, a1, a2), (b0, b1, b2) => (a0 - b0, a1 - b1, a2 - b2)

/-- Embeds `vec3Add` (`vec3.ts`). -/
def vec3Add (a b : vec3) : vec3 :=
  match a, b with
  | (a0, a1, a2), (b0, b1, b2) => (a0 + b0, a1 + b1, a2 + b2)

/-- Embeds `vec3Mul` (`vec3.ts`): scalar multiply. -/
def vec3Mul (v : vec3) (scalar : ℝ) : vec3 :=
  match v with
  | (v0, v1, v2) => (v0 * scalar, v1 * scalar, v2 * scalar)

/-- Embeds `vec3Lerp` (`vec3.ts`): `out = a + t·(b - a)`, computed through a
temporary as in the source (`temp = b - a; temp *= t; out = a + temp`). -/
def vec3Lerp (a b : vec3) (t : ℝ) : vec3 :=
  let temp := vec3Sub b a
  let temp := vec3Mul temp t
  vec3Add a temp

/-- Embeds `quatDot` (`quat.ts`). -/
def quatDot (a b : quat) : ℝ :=
  match a, b with
  | (a0, a1, a2, a3), (b0, b1, b2, b3) =>
    a0 * b0 + a1 * b1 + a2 * b2 + a3 * b3

/-- Embeds `quatLength` (`quat.ts`). -/
noncomputable def quatLength (q : quat) : ℝ :=
  match q with
  | (q0, q1, q2, q3) => Real.sqrt (q0 * q0 + q1 * q1 + q2 * q2 + q3 * q3)

/-- Embeds `quatLengthSq` (`quat.ts`). -/
def quatLengthSq (q : quat) : ℝ :=
  match q with
  | (q0, q1, q2, q3) => q0 * q0 + q1 * q1 + q2 * q2 + q3 * q3

/-- Componentwise negation of a quaternion, as written inline by
`quatSlerp` / `basisSlerp` when the dot product is negative. -/
def quatNegate (q : quat) : quat :=
  match q with
  | (q0, q1, q2, q3) => (-q0, -q1, -q2, -q3)

/-- Embeds `quatNormalize` (`quat.ts`): zero length yields the identity quaternion
`(0,0,0,1)`, otherwise divide by the length.  `out` is fully overwritten. -/
noncomputable def quatNormalize (q : quat) : quat :=
  match q with
  | (q0, q1, q2, q3) =>
    let len := Real.sqrt (q0 * q0 + q1 * q1 + q2 * q2 + q3 * q3)
    if len = 0 then (0, 0, 0, 1) else (q0 / len, q1 / len, q2 / len, q3 / len)

/-- Embeds `quatLerp` (`quat.ts`): componentwise lerp, then renormalize when the
length exceeds `EPSILON`.  `out` is fully overwritten before being read. -/
noncomputable def quatLerp (a b : quat) (t : ℝ) : quat :=
  match a, b with
  | (a0, a1, a2, a3), (b0, b1, b2, b3) =>
    let o0 := a0 + t * (b0 - a0)
    let o1 := a1 + t * (b1 - a1)
    let o2 := a2 + t * (b2 - a2)
    let o3 := a3 + t * (b3 - a3)
    let len := Real.sqrt (o0 * o0 + o1 * o1 + o2 * o2 + o3 * o3)
    if len > EPSILON then (o0 / len, o1 / len, o2 / len, o3 / len)
    else (o0, o1, o2, o3)

/-- Embeds `quatSlerp` (`quat.ts`) with `out` distinct from both inputs (the
function writes every element of `out` before reading any, so the prior
contents of a fresh `out` are irrelevant).  Mirrors the source: negate the
copied `b` when the dot product is negative, fall back to normalized lerp
when `dot > 0.9995`, otherwise use the spherical formula. -/
noncomputable def quatSlerp (a b : quat) (t : ℝ) : quat :=
  match a, b with
  | (a0, a1, a2, a3), (b0, b1, b2, b3) =>
    let dot := a0 * b0 + a1 * b1 + a2 * b2 + a3 * b3
    -- `if (dot < 0) { dot = -dot; out = -b } else { out = b }`
    let dot2 := if dot < 0 then -dot else dot
    let o0 := if dot < 0 then -b0 else b0
    let o1 := if dot < 0 then -b1 else b1
    let o2 := if dot < 0 then -b2 else b2
    let o3 := if dot < 0 then -b3 else b3
    if dot2 > 0.9995 then
      let p0 := a0 + t * (o0 - a0)
      let p1 := a1 + t * (o1 - a1)
      let p2 := a2 + t * (o2 - a2)
      let p3 := a3 + t * (o3 - a3)
      let len := Real.sqrt (p0 * p0 + p1 * p1 + p2 * p2 + p3 * p3)
      if len > EPSILON then (p0 / len, p1 / len, p2 / len, p3 / len)
      else (p0, p1, p2, p3)
    else
      let theta0 := Real.arccos |dot2|
      let sinTheta0 := Real.sin theta0
      let theta := theta0 * t
      let sinTheta := Real.sin theta
      let s0 := Real.cos theta - dot2 * sinTheta / sinTheta0
      let s1 := sinTheta / sinTheta0
      (s0 * a0 + s1 * o0, s0 * a1 + s1 * o1, s0 * a2 + s1 * o2,
        s0 * a3 + s1 * o3)

/-- Embeds `quatSlerp` (`quat.ts`) called with `out === a`: the same statements,
but every write to `out[i]` lands in the cell that also holds `a[i]`, so
once the source has stored `±b` into `out` (lines 379–390) every later read
of `a[i]` yields that stored value instead of the original `a[i]`. -/
noncomputable def quatSlerpOutA (a b : quat) (t : ℝ) : quat :=
  match a, b with
  | (a0, a1, a2, a3), (b0, b1, b2, b3) =>
    let dot := a0 * b0 + a1 * b1 + a2 * b2 + a3 * b3
    let dot2 := if dot < 0 then -dot else dot
    -- after these writes the shared cells hold `±b`, and `a` is gone
    let c0 := if dot < 0 then -b0 else b0
    let c1 := if dot < 0 then -b1 else b1
    let c2 := if dot < 0 then -b2 else b2
    let c3 := if dot < 0 then -b3 else b3
    if dot2 > 0.9995 then
      -- `out[i] = a[i] + t * (out[i] - a[i])` reads `a[i]` from the cell,
      -- which now holds `c i`
      let p0 := c0 + t * (c0 - c0)
      let p1 := c1 + t * (c1 - c1)
      let p2 := c2 + t * (c2 - c2)
      let p3 := c3 + t * (c3 - c3)
      let len := Real.sqrt (p0 * p0 + p1 * p1 + p2 * p2 + p3 * p3)
      if len > EPSILON then (p0 / len, p1 / len, p2 / len, p3 / len)
      else (p0, p1, p2, p3)
    else
      let theta0 := Real.arccos |dot2|
      let sinTheta0 := Real.sin theta0
      let theta := theta0 * t
      let sinTheta := Real.sin theta
      let s0 := Real.cos theta - dot2 * sinTheta / sinTheta0
      let s1 := sinTheta / sinTheta0
      -- `out[i] = s0 * a[i] + s1 * out[i]` reads `a[i]` from the cell
      (s0 * c0 + s1 * c0, s0 * c1 + s1 * c1, s0 * c2 + s1 * c2,
        s0 * c3 + s1 * c3)

/-- The identity basis `[1,0,0, 0,1,0, 0,0,1]` (`basisIdentity` in
`basis.ts`; it fully overwrites `out`). -/
def basisIdentity : basis := (1, 0, 0, 0, 1, 0, 0, 0, 1)

/-- Embeds `basisMul` (`basis.ts`): row-major 3×3 matrix product `a * b`.
All inputs are read into locals before any element of `out` is written. -/
def basisMul (a b : basis) : basis :=
  match a, b with
  | (a00, a01, a02, a10, a11, a12, a20, a21, a22),
    (b00, b01, b02, b10, b11, b12, b20, b21, b22) =>
    (a00 * b00 + a01 * b10 + a02 * b20,
     a00 * b01 + a01 * b11 + a02 * b21,
     a00 * b02 + a01 * b12 + a02 * b22,
     a10 * b00 + a11 * b10 + a12 * b20,
     a10 * b01 + a11 * b11 + a12 * b21,
     a10 * b02 + a11 * b12 + a12 * b22,
     a20 * b00 + a21 * b10 + a22 * b20,
     a20 * b01 + a21 * b11 + a22 * b21,
     a20 * b02 + a21 * b12 + a22 * b22)

/-- Embeds `basisTranspose` (`basis.ts`), `out !== b` path: straight copy of the
transposed entries. -/
def basisTranspose (b : basis) : basis :=
  match b with
  | (b0, b1, b2, b3, b4, b5, b6, b7, b8) =>
    (b0, b3, b6, b1, b4, b7, b2, b5, b8)

/-- Embeds `basisTranspose` (`basis.ts`), `out === b` path: the source saves
`b[1]`, `b[2]`, `b[5]` into locals and then performs the six in-place
writes in order (`out[1]=b[3]; out[2]=b[6]; out[3]=b01; out[5]=b[7];
out[6]=b02; out[7]=b12`); each read below refers to the cell's value at the
moment the source reads it. -/
def basisTransposeAliased (b : basis) : basis :=
  match b with
  | (c0, c1, c2, c3, c4, c5, c6, c7, c8) =>
    let b01 := c1
    let b02 := c2
    let b12 := c5
    let c1' := c3   -- out[1] = b[3] (cell 3 not yet written)
    let c2' := c6   -- out[2] = b[6] (cell 6 not yet written)
    let c3' := b01  -- out[3] = saved b01
    let c5' := c7   -- out[5] = b[7] (cell 7 not yet written)
    let c6' := b02  -- out[6] = saved b02
    let c7' := b12  -- out[7] = saved b12
    (c0, c1', c2', c3', c4, c5', c6', c7', c8)

/-- Embeds `basisDeterminant` (`basis.ts`). -/
def basisDeterminant (b : basis) : ℝ :=
  match b with
  | (b0, b1, b2, b3, b4, b5, b6, b7, b8) =>
    b0 * (b4 * b8 - b5 * b7) - b1 * (b3 * b8 - b5 * b6) +
      b2 * (b3 * b7 - b4 * b6)

/-- Embeds `basisInverse` (`basis.ts`): when `|det| < EPSILON` the source writes
and returns the identity basis, otherwise the adjugate divided by the
determinant.  `out` is fully overwritten on both paths. -/
noncomputable def basisInverse (b : basis) : basis :=
  match b with
  | (b0, b1, b2, b3, b4, b5, b6, b7, b8) =>
    let det := basisDeterminant (b0, b1, b2, b3, b4, b5, b6, b7, b8)
    if |det| < EPSILON then basisIdentity
    else
      let invDet := 1.0 / det
      ((b4 * b8 - b5 * b7) * invDet,
       (b2 * b7 - b1 * b8) * invDet,
       (b1 * b5 - b2 * b4) * invDet,
       (b5 * b6 - b3 * b8) * invDet,
       (b0 * b8 - b2 * b6) * invDet,
       (b2 * b3 - b0 * b5) * invDet,
       (b3 * b7 - b4 * b6) * invDet,
       (b1 * b6 - b0 * b7) * invDet,
       (b0 * b4 - b1 * b3) * invDet)

/-- Embeds `basisGetXAxis` (`basis.ts`). -/
def basisGetXAxis (b : basis) : vec3 :=
  match b with
  | (b0, b1, b2, _, _, _, _, _, _) => (b0, b1, b2)

/-- Embeds `basisFromQuat` (`basis.ts`): allocates and returns a fresh basis. -/
def basisFromQuat (q : quat) : basis :=
  match q with
  | (x, y, z, w) =>
    let x2 := x + x
    let y2 := y + y
    let z2 := z + z
    let xx := x * x2
    let xy := x * y2
    let xz := x * z2
    let yy := y * y2
    let yz := y * z2
    let zz := z * z2
    let wx := w * x2
    let wy := w * y2
    let wz := w * z2
    (1 - (yy + zz), xy + wz, xz - wy,
     xy - wz, 1 - (xx + zz), yz + wx,
     xz + wy, yz - wx, 1 - (xx + yy))

/-- Embeds `basisToQuat` (`basis.ts`): Shepperd-style extraction, branching on the
trace and the largest diagonal element. -/
noncomputable def basisToQuat (b : basis) : quat :=
  match b with
  | (b0, b1, b2, b3, b4, b5, b6, b7, b8) =>
    let trace := b0 + b4 + b8
    if trace > 0 then
      let s := Real.sqrt (trace + 1.0) * 2
      ((b7 - b5) / s, (b2 - b6) / s, (b3 - b1) / s, 0.25 * s)
    else if b0 > b4 ∧ b0 > b8 then
      let s := Real.sqrt (1.0 + b0 - b4 - b8) * 2
      (0.25 * s, (b1 + b3) / s, (b2 + b6) / s, (b7 - b5) / s)
    else if b4 > b8 then
      let s := Real.sqrt (1.0 + b4 - b0 - b8) * 2
      ((b1 + b3) / s, 0.25 * s, (b5 + b7) / s, (b2 - b6) / s)
    else
      let s := Real.sqrt (1.0 + b8 - b0 - b4) * 2
      ((b2 + b6) / s, (b5 + b7) / s, 0.25 * s, (b3 - b1) / s)

/-- Embeds `basisFromAxisAngle` (`basis.ts`): Rodrigues' formula on the normalized
axis. -/
noncomputable def basisFromAxisAngle (axis : vec3) (angle : ℝ) : basis :=
  match vec3Normalize axis with
  | (x, y, z) =>
    let c := Real.cos angle
    let s := Real.sin angle
    let t := 1 - c
    (x * x * t + c, y * x * t + z * s, z * x * t - y * s,
     x * y * t - z * s, y * y * t + c, z * y * t + x * s,
     x * z * t + y * s, y * z * t - x * s, z * z * t + c)

/-- Embeds `basisRotate` (`basis.ts`): global-space rotation,
`basisMul(out, rotationBasis, b)`. -/
noncomputable def basisRotate (b : basis) (axis : vec3) (angle : ℝ) : basis :=
  let rotationBasis := basisFromAxisAngle axis angle
  basisMul rotationBasis b

/-- Embeds `basisRotateLocal` (`basis.ts`): local-space rotation,
`basisMul(out, b, rotationBasis)`. -/
noncomputable def basisRotateLocal (b : basis) (axis : vec3) (angle : ℝ) :
    basis :=
  let rotationBasis := basisFromAxisAngle axis angle
  basisMul b rotationBasis

/-- Embeds `basisOrthonormalize` (`basis.ts`).  The source passes *fresh array
literals* `[out[0],out[1],out[2]]`, `[out[3],out[4],out[5]]`,
`[out[6],out[7],out[8]]` as the destination of `vec3Normalize` /
`vec3Cross`, so every Gram–Schmidt result is written into a temporary that
is immediately discarded; no statement ever assigns to an element of `out`,
and the function returns `out` exactly as it was passed in. -/
noncomputable def basisOrthonormalize (out b : basis) : basis :=
  match out, b with
  | (o0, o1, o2, o3, o4, o5, o6, o7, o8),
    (b0, b1, b2, b3, b4, b5, _b6, _b7, _b8) =>
    -- `vec3Normalize([out[0],out[1],out[2]], [b[0],b[1],b[2]])`:
    -- result written into a discarded fresh array
    let _xTmp := vec3Normalize (b0, b1, b2)
    -- `yProj = vec3Dot([b[3],b[4],b[5]], [out[0],out[1],out[2]])`
    -- (reads the *unchanged* out)
    let yProj := vec3Dot (b3, b4, b5) (o0, o1, o2)
    let yAxis : vec3 :=
      (b3 - yProj * o0, b4 - yProj * o1, b5 - yProj * o2)
    -- `vec3Normalize([out[3],out[4],out[5]], yAxis)`: discarded
    let _yTmp := vec3Normalize yAxis
    -- `vec3Cross([out[6],out[7],out[8]], ..., ...)`: discarded
    let _zTmp := vec3Cross (o0, o1, o2) (o3, o4, o5)
    (o0, o1, o2, o3, o4, o5, o6, o7, o8)

/-- Embeds `basisLerp` (`basis.ts`): converts both bases to quaternions, lerps the
components, renormalizes when the length exceeds `EPSILON`, and returns a
*fresh* basis built by `basisFromQuat`; `out` is never written.  The result
is the pair `(returned basis, out after the call)`. -/
noncomputable def basisLerp (out a b : basis) (t : ℝ) : basis × basis :=
  let qa := basisToQuat a
  let qb := basisToQuat b
  match qa, qb with
  | (qa0, qa1, qa2, qa3), (qb0, qb1, qb2, qb3) =>
    let q0 := qa0 + t * (qb0 - qa0)
    let q1 := qa1 + t * (qb1 - qa1)
    let q2 := qa2 + t * (qb2 - qa2)
    let q3 := qa3 + t * (qb3 - qa3)
    let len := Real.sqrt (q0 * q0 + q1 * q1 + q2 * q2 + q3 * q3)
    if len > EPSILON then
      (basisFromQuat (q0 / len, q1 / len, q2 / len, q3 / len), out)
    else (basisFromQuat (q0, q1, q2, q3), out)

/-- Embeds `basisSlerp` (`basis.ts`): converts both bases to quaternions, then
runs the same shortest-arc slerp as `quatSlerp` (negate on negative dot,
normalized-lerp fallback for `dot > 0.9995`, spherical formula otherwise)
and returns a *fresh* basis built by `basisFromQuat`; `out` is never
written.  The result is the pair `(returned basis, out after the call)`. -/
noncomputable def basisSlerp (out a b : basis) (t : ℝ) : basis × basis :=
  let qa := basisToQuat a
  let qb := basisToQuat b
  match qa, qb with
  | (qa0, qa1, qa2, qa3), (qb0, qb1, qb2, qb3) =>
    let dot := qa0 * qb0 + qa1 * qb1 + qa2 * qb2 + qa3 * qb3
    let dot2 := if dot < 0 then -dot else dot
    let o0 := if dot < 0 then -qb0 else qb0
    let o1 := if dot < 0 then -qb1 else qb1
    let o2 := if dot < 0 then -qb2 else qb2
    let o3 := if dot < 0 then -qb3 else qb3
    if dot2 > 0.9995 then
      let p0 := qa0 + t * (o0 - qa0)
      let p1 := qa1 + t * (o1 - qa1)
      let p2 := qa2 + t * (o2 - qa2)
      let p3 := qa3 + t * (o3 - qa3)
      let len := Real.sqrt (p0 * p0 + p1 * p1 + p2 * p2 + p3 * p3)
      if len > EPSILON then
        (basisFromQuat (p0 / len, p1 / len, p2 / len, p3 / len), out)
      else (basisFromQuat (p0, p1, p2, p3), out)
    else
      let theta0 := Real.arccos |dot2|
      let sinTheta0 := Real.sin theta0
      let theta := theta0 * t
      let sinTheta := Real.sin theta
      let s0 := Real.cos theta - dot2 * sinTheta / sinTheta0
      let s1 := sinTheta / sinTheta0
      (basisFromQuat (s0 * qa0 + s1 * o0, s0 * qa1 + s1 * o1,
        s0 * qa2 + s1 * o2, s0 * qa3 + s1 * o3), out)

/-- Embeds `mat3Invert` (`mat3.ts`): returns `null` (modelled as `none`) when
`|det| < EPSILON`, otherwise the adjugate divided by the determinant
(computed by cofactor expansion as in the source). -/
noncomputable def mat3Invert (a : mat3) : Option mat3 :=
  match a with
  | (a00, a01, a02, a10, a11, a12, a20, a21, a22) =>
    let b01 := a22 * a11 - a12 * a21
    let b11 := -a22 * a10 + a12 * a20
    let b21 := a21 * a10 - a11 * a20
    let det := a00 * b01 + a01 * b11 + a02 * b21
    if |det| < EPSILON then none
    else
      let d := 1.0 / det
      some (b01 * d, (-a22 * a01 + a02 * a21) * d, (a12 * a01 - a02 * a11) * d,
        b11 * d, (a22 * a00 - a02 * a20) * d, (-a12 * a00 + a02 * a10) * d,
        b21 * d, (-a21 * a00 + a01 * a20) * d, (a11 * a00 - a01 * a10) * d)

/-- Embeds `mat4Mul` (`mat4.ts`): the gl-matrix style product.  All of `a` is read
into locals up front and each line of `b` is read before the corresponding
elements of `out` are written. -/
def mat4Mul (a b : mat4) : mat4 :=
  match a, b with
  | (a00, a01, a02, a03, a10, a11, a12, a13,
     a20, a21, a22, a23, a30, a31, a32, a33),
    (b00, b01, b02, b03, b10, b11, b12, b13,
     b20, b21, b22, b23, b30, b31, b32, b33) =>
    (b00 * a00 + b01 * a10 + b02 * a20 + b03 * a30,
     b00 * a01 + b01 * a11 + b02 * a21 + b03 * a31,
     b00 * a02 + b01 * a12 + b02 * a22 + b03 * a32,
     b00 * a03 + b01 * a13 + b02 * a23 + b03 * a33,
     b10 * a00 + b11 * a10 + b12 * a20 + b13 * a30,
     b10 * a01 + b11 * a11 + b12 * a21 + b13 * a31,
     b10 * a02 + b11 * a12 + b12 * a22 + b13 * a32,
     b10 * a03 + b11 * a13 + b12 * a23 + b13 * a33,
     b20 * a00 + b21 * a10 + b22 * a20 + b23 * a30,
     b20 * a01 + b21 * a11 + b22 * a21 + b23 * a31,
     b20 * a02 + b21 * a12 + b22 * a22 + b23 * a32,
     b20 * a03 + b21 * a13 + b22 * a23 + b23 * a33,
     b30 * a00 + b31 * a10 + b32 * a20 + b33 * a30,
     b30 * a01 + b31 * a11 + b32 * a21 + b33 * a31,
     b30 * a02 + b31 * a12 + b32 * a22 + b33 * a32,
     b30 * a03 + b31 * a13 + b32 * a23 + b33 * a33)

/-- Reads a stored `basis` as the 3×3 matrix it denotes: the basis is
row-major (`B(r,c) = b[3r+c]`), and `basisRotateVec3` applies it to a
column vector on the right. -/
def toMatB (b : basis) : Matrix (Fin 3) (Fin 3) ℝ :=
  match b with
  | (b0, b1, b2, b3, b4, b5, b6, b7, b8) =>
    !![b0, b1, b2; b3, b4, b5; b6, b7, b8]

/-- Reads a stored `mat3` as the 3×3 matrix it denotes: column-major
(`M(r,c) = m[3c+r]`), matching the file's documented layout and
`mat3TransformVec2`'s column-vector action. -/
def toMatC (m : mat3) : Matrix (Fin 3) (Fin 3) ℝ :=
  match m with
  | (m0, m1, m2, m3, m4, m5, m6, m7, m8) =>
    !![m0, m3, m6; m1, m4, m7; m2, m5, m8]

/-- Reads a stored `mat4` as the 4×4 matrix it denotes: column-major
(`M(r,c) = m[4c+r]`), matching the file's documented layout and
`mat4TransformVec3`'s column-vector action. -/
def toMat4 (m : mat4) : Matrix (Fin 4) (Fin 4) ℝ :=
  match m with
  | (m0, m1, m2, m3, m4, m5, m6, m7,
     m8, m9, m10, m11, m12, m13, m14, m15) =>
    !![m0, m4, m8, m12; m1, m5, m9, m13; m2, m6, m10, m14; m3, m7, m11, m15]

/-- An HSV color `[h, s, v]` (`server.ts`); the color helpers use only
field operations and `%`, so they are modelled over ℚ. -/
abbrev hsvColor : Type := ℚ × ℚ × ℚ

/-- JavaScript's `%` on rationals: remainder with the sign of the dividend,
`x % y = x - y * trunc(x / y)` (truncation toward zero). -/
def jsRem (x y : ℚ) : ℚ :=
  x - y * (if 0 ≤ x / y then (⌊x / y⌋ : ℚ) else (⌈x / y⌉ : ℚ))

/-- Embeds `lerpHsv` (`server.ts`): wrap the raw hue delta by ±360 when its
magnitude exceeds 180 (two sequential `if`s, as in the source), interpolate,
and reduce the hue with `(... + 360) % 360`; saturation and value are
plain lerps.  `out` is fully overwritten. -/
def lerpHsv (a b : hsvColor) (t : ℚ) : hsvColor :=
  match a, b with
  | (ha, sa, va), (hb, sb, vb) =>
    let hDiff := hb - ha
    let hDiff := if hDiff > 180 then hDiff - 360 else hDiff
    let hDiff := if hDiff < -180 then hDiff + 360 else hDiff
    (jsRem (ha + hDiff * t + 360) 360,
     sa + (sb - sa) * t,
     va + (vb - va) * t)

/-- The operation `basisMul` implements the mathematical product of the row-major
matrices its arguments denote. -/
theorem toMatB_basisMul (a b : basis) :
    toMatB (basisMul a b) = toMatB a * toMatB b := by
  obtain ⟨a0, a1, a2, a3, a4, a5, a6, a7, a8⟩ := a
  obtain ⟨b0, b1, b2, b3, b4, b5, b6, b7, b8⟩ := b
  ext i j
  fin_cases i <;> fin_cases j <;>
    simp [toMatB, basisMul, Matrix.mul_apply, Fin.sum_univ_three]

/-- C2: the claim says `basisOrthonormalize(out, b)` yields three
unit-length mutually orthogonal axes in `out`.  In fact the source writes
every Gram–Schmidt result into a fresh temporary array and discards it, so
`basisOrthonormalize` returns `out` exactly as passed in; at the
non-degenerate skewed input `b = [1,0,0, 1,1,0, 0,0,1]` with a zeroed
output container the returned X axis has length 0, not 1. -/
theorem c2_basisOrthonormalize_noop :
    (∀ out b : basis, basisOrthonormalize out b = out) ∧
    basisOrthonormalize (0, 0, 0, 0, 0, 0, 0, 0, 0)
        (1, 0, 0, 1, 1, 0, 0, 0, 1) = (0, 0, 0, 0, 0, 0, 0, 0, 0) ∧
    vec3Length (basisGetXAxis (basisOrthonormalize
        (0, 0, 0, 0, 0, 0, 0, 0, 0) (1, 0, 0, 1, 1, 0, 0, 0, 1))) = 0 := by
  refine ⟨?_, rfl, ?_⟩
  · rintro ⟨o0, o1, o2, o3, o4, o5, o6, o7, o8⟩
      ⟨b0, b1, b2, b3, b4, b5, b6, b7, b8⟩
    rfl
  · norm_num [basisOrthonormalize, basisGetXAxis, vec3Length]

/-- C4 (counterexample): with `a` the unit upper-shear (`a[4] = 1`) and
`b = diag(2,1,1,1)` in column-major storage, `mat4Mul(out, a, b)` is *not*
the product `b × a` of the denoted matrices — its `(0,1)` entry is `1`
while `(b × a)(0,1) = 2`. -/
theorem c4_counterexample_mat4Mul_order :
    toMat4 (mat4Mul (1, 0, 0, 0, 1, 1, 0, 0, 0, 0, 1, 0, 0, 0, 0, 1)
        (2, 0, 0, 0, 0, 1, 0, 0, 0, 0, 1, 0, 0, 0, 0, 1)) ≠
      toMat4 (2, 0, 0, 0, 0, 1, 0, 0, 0, 0, 1, 0, 0, 0, 0, 1) *
        toMat4 (1, 0, 0, 0, 1, 1, 0, 0, 0, 0, 1, 0, 0, 0, 0, 1) := by
  intro h
  have h01 := congrFun (congrFun h 0) 1
  simp [toMat4, mat4Mul, Matrix.mul_apply, Fin.sum_univ_four] at h01

/-- C4 (amended): `mat4Mul(out, a, b)` computes the product `a × b` of the
denoted column-major matrices, i.e. the matrix that applies `b`'s transform
first and then `a`'s to a column vector. -/
theorem c4_mat4Mul_applies_b_first (a b : mat4) :
    toMat4 (mat4Mul a b) = toMat4 a * toMat4 b := by
  obtain ⟨a0, a1, a2, a3, a4, a5, a6, a7,
    a8, a9, a10, a11, a12, a13, a14, a15⟩ := a
  obtain ⟨b0, b1, b2, b3, b4, b5, b6, b7,
    b8, b9, b10, b11, b12, b13, b14, b15⟩ := b
  ext i j
  fin_cases i <;> fin_cases j <;>
    simp [toMat4, mat4Mul, Matrix.mul_apply, Fin.sum_univ_four] <;> ring

/-- C6: an input of length exactly zero never reaches the division:
`vec2Normalize` and `vec3Normalize` return the zero vector and
`quatNormalize` returns the identity quaternion `(0,0,0,1)`. -/
theorem c6_normalize_zero_input (v : vec3) (w : vec2) (q : quat)
    (hv : vec3Length v = 0) (hw : vec2Length w = 0)
    (hq : quatLength q = 0) :
    vec3Normalize v = (0, 0, 0) ∧ vec2Normalize w = (0, 0) ∧
      quatNormalize q = (0, 0, 0, 1) := by
  obtain ⟨x, y, z⟩ := v
  obtain ⟨u, u'⟩ := w
  obtain ⟨q0, q1, q2, q3⟩ := q
  simp only [vec3Length] at hv
  simp only [vec2Length] at hw
  simp only [quatLength] at hq
  refine ⟨?_, ?_, ?_⟩ <;> simp [vec3Normalize, vec2Normalize, quatNormalize,
    hv, hw, hq]

/-- C6 witness: the zero vector/quaternion have length zero and normalize
to the zero vector resp. the identity quaternion. -/
theorem c6_normalize_zero_input_witness :
    vec3Length (0, 0, 0) = 0 ∧ vec2Length (0, 0) = 0 ∧
      quatLength (0, 0, 0, 0) = 0 ∧
      (vec3Normalize (0, 0, 0) = (0, 0, 0) ∧
        vec2Normalize (0, 0) = (0, 0) ∧
        quatNormalize (0, 0, 0, 0) = (0, 0, 0, 1)) := by
  have hv : vec3Length ((0 : ℝ), (0 : ℝ), (0 : ℝ)) = 0 := by
    norm_num [vec3Length]
  have hw : vec2Length ((0 : ℝ), (0 : ℝ)) = 0 := by norm_num [vec2Length]
  have hq : quatLength ((0 : ℝ), (0 : ℝ), (0 : ℝ), (0 : ℝ)) = 0 := by
    norm_num [quatLength]
  exact ⟨hv, hw, hq, c6_normalize_zero_input _ _ _ hv hw hq⟩

/-- C10: `basisLerp` and `basisSlerp` never write to their `out`
parameter — it is returned unchanged — and the value they return is the
fresh basis produced by `basisFromQuat` on the interpolated quaternion
(`quatLerp` resp. `quatSlerp` of the two converted bases). -/
theorem c10_basisLerp_slerp_frame (out a b : basis) (t : ℝ) :
    (basisLerp out a b t).2 = out ∧ (basisSlerp out a b t).2 = out ∧
    (basisLerp out a b t).1 =
      basisFromQuat (quatLerp (basisToQuat a) (basisToQuat b) t) ∧
    (basisSlerp out a b t).1 =
      basisFromQuat (quatSlerp (basisToQuat a) (basisToQuat b) t) := by
  refine ⟨?_, ?_, ?_, ?_⟩ <;>
    simp only [basisLerp, basisSlerp, quatLerp, quatSlerp] <;>
    split_ifs <;> rfl

/-- C3: `basisRotate` pre-multiplies by the axis-angle rotation matrix
(global frame) and `basisRotateLocal` post-multiplies (local frame); on the
identity basis the two agree for every axis and angle, while on the
non-identity basis `[0,1,0, 1,0,0, 0,0,1]` with axis `(1,0,0)` and angle π
they differ. -/
theorem c3_basisRotate_pre_post_multiply (b : basis) (axis : vec3)
    (angle : ℝ) :
    toMatB (basisRotate b axis angle) =
      toMatB (basisFromAxisAngle axis angle) * toMatB b ∧
    toMatB (basisRotateLocal b axis angle) =
      toMatB b * toMatB (basisFromAxisAngle axis angle) ∧
    basisRotate basisIdentity axis angle =
      basisRotateLocal basisIdentity axis angle ∧
    basisRotate (0, 1, 0, 1, 0, 0, 0, 0, 1) (1, 0, 0) Real.pi ≠
      basisRotateLocal (0, 1, 0, 1, 0, 0, 0, 0, 1) (1, 0, 0) Real.pi := by
  refine ⟨?_, ?_, ?_, ?_⟩
  · simp only [basisRotate]
    exact toMatB_basisMul _ _
  · simp only [basisRotateLocal]
    exact toMatB_basisMul _ _
  · rcases h : basisFromAxisAngle axis angle with
      ⟨r0, r1, r2, r3, r4, r5, r6, r7, r8⟩
    simp only [basisRotate, basisRotateLocal, h, basisIdentity, basisMul]
    norm_num
  · intro h
    have hn : vec3Normalize ((1 : ℝ), (0 : ℝ), (0 : ℝ)) = (1, 0, 0) := by
      norm_num [vec3Normalize]
    simp only [basisRotate, basisRotateLocal, basisFromAxisAngle, hn,
      basisMul, Real.cos_pi, Real.sin_pi, Prod.mk.injEq] at h
    norm_num at h

/-- The cofactor-expansion determinant computed inside `mat3Invert` agrees
with `basisDeterminant` on the same nine stored numbers. -/
theorem mat3cofactor_det_eq (a00 a01 a02 a10 a11 a12 a20 a21 a22 : ℝ) :
    a00 * (a22 * a11 - a12 * a21) + a01 * (-a22 * a10 + a12 * a20) +
      a02 * (a21 * a10 - a11 * a20) =
    basisDeterminant (a00, a01, a02, a10, a11, a12, a20, a21, a22) := by
  simp only [basisDeterminant]
  ring

set_option maxHeartbeats 3200000 in
/-- C7: on a stored 3×3 input whose determinant is smaller than `EPSILON`
in absolute value, `basisInverse` silently returns the identity basis while
`mat3Invert` returns the `none` sentinel; at or above the threshold both
return a genuine two-sided inverse of the matrix they denote. -/
theorem c7_degenerate_inverse_policies (m : basis) :
    (|basisDeterminant m| < EPSILON →
      basisInverse m = basisIdentity ∧ mat3Invert m = none) ∧
    (EPSILON ≤ |basisDeterminant m| →
      (toMatB (basisInverse m) * toMatB m = 1 ∧
        toMatB m * toMatB (basisInverse m) = 1) ∧
      ∃ inv, mat3Invert m = some inv ∧
        toMatC inv * toMatC m = 1 ∧ toMatC m * toMatC inv = 1) := by
  obtain ⟨b0, b1, b2, b3, b4, b5, b6, b7, b8⟩ := m
  constructor
  · intro hlt
    constructor
    · simp only [basisInverse]
      rw [if_pos hlt]
    · simp only [mat3Invert]
      rw [mat3cofactor_det_eq, if_pos hlt]
  · intro hge
    have hlt' : ¬ |basisDeterminant (b0, b1, b2, b3, b4, b5, b6, b7, b8)| <
        EPSILON := not_lt.mpr hge
    have hne : basisDeterminant (b0, b1, b2, b3, b4, b5, b6, b7, b8) ≠ 0 := by
      intro h0
      rw [h0] at hge
      norm_num [EPSILON] at hge
    refine ⟨⟨?_, ?_⟩, ?_⟩
    · simp only [basisInverse]
      rw [if_neg hlt']
      simp only [basisDeterminant] at hne ⊢
      ext i j
      fin_cases i <;> fin_cases j <;>
        simp [toMatB, Matrix.mul_apply, Fin.sum_univ_three,
          Matrix.one_apply] <;>
        field_simp <;> ring
    · simp only [basisInverse]
      rw [if_neg hlt']
      simp only [basisDeterminant] at hne ⊢
      ext i j
      fin_cases i <;> fin_cases j <;>
        simp [toMatB, Matrix.mul_apply, Fin.sum_univ_three,
          Matrix.one_apply] <;>
        field_simp <;> ring
    · simp only [mat3Invert]
      rw [mat3cofactor_det_eq, if_neg hlt']
      refine ⟨_, rfl, ?_, ?_⟩ <;>
      · simp only [basisDeterminant] at hne ⊢
        ext i j
        fin_cases i <;> fin_cases j <;>
          simp [toMatC, Matrix.mul_apply, Fin.sum_univ_three,
            Matrix.one_apply] <;>
          field_simp <;> ring

/-- C7 witness: the zero matrix falls below the determinant threshold
(`basisInverse` yields the identity, `mat3Invert` yields `none`), and the
identity matrix is above it and is correctly inverted. -/
theorem c7_degenerate_inverse_policies_witness :
    |basisDeterminant (0, 0, 0, 0, 0, 0, 0, 0, 0)| < EPSILON ∧
    EPSILON ≤ |basisDeterminant basisIdentity| ∧
    (basisInverse (0, 0, 0, 0, 0, 0, 0, 0, 0) = basisIdentity ∧
      mat3Invert (0, 0, 0, 0, 0, 0, 0, 0, 0) = none) ∧
    (toMatB (basisInverse basisIdentity) * toMatB basisIdentity = 1 ∧
      toMatB basisIdentity * toMatB (basisInverse basisIdentity) = 1) ∧
    ∃ inv, mat3Invert basisIdentity = some inv ∧
      toMatC inv * toMatC basisIdentity = 1 ∧
      toMatC basisIdentity * toMatC inv = 1 := by
  have h1 : |basisDeterminant ((0 : ℝ), (0 : ℝ), (0 : ℝ), (0 : ℝ), (0 : ℝ),
      (0 : ℝ), (0 : ℝ), (0 : ℝ), (0 : ℝ))| < EPSILON := by
    norm_num [basisDeterminant, EPSILON]
  have h2 : EPSILON ≤ |basisDeterminant basisIdentity| := by
    norm_num [basisDeterminant, basisIdentity, EPSILON]
  exact ⟨h1, h2, (c7_degenerate_inverse_policies _).1 h1,
    ((c7_degenerate_inverse_policies _).2 h2).1,
    ((c7_degenerate_inverse_policies _).2 h2).2⟩

/-- The wrapped hue delta computed by `lerpHsv`: the raw delta, reduced by
360 when above 180 and raised by 360 when below −180 (two sequential tests,
exactly as in the source). -/
def wrappedHueDelta (ha hb : ℚ) : ℚ :=
  let hDiff := hb - ha
  let hDiff := if hDiff > 180 then hDiff - 360 else hDiff
  let hDiff := if hDiff < -180 then hDiff + 360 else hDiff
  hDiff

/-- C9 (counterexample): the claim quantifies over every `t`, but for
`t = -100` (outside the documented `[0, 1]` range) the resulting hue of
`lerpHsv([0,1,1], [10,1,1], -100)` is `-280`, which is not wrapped back
into `[0, 360)` — JavaScript's `%` keeps the dividend's sign. -/
theorem c9_counterexample_lerpHsv :
    (lerpHsv (0, 1, 1) (10, 1, 1) (-100)).1 = -280 ∧
    ¬ (0 ≤ (lerpHsv (0, 1, 1) (10, 1, 1) (-100)).1 ∧
        (lerpHsv (0, 1, 1) (10, 1, 1) (-100)).1 < 360) := by
  have hc : (⌈-((16 : ℚ) / 9)⌉ : ℤ) = -1 := by
    rw [Int.ceil_eq_iff]
    norm_num
  constructor
  · norm_num [lerpHsv, jsRem, hc]
  · norm_num [lerpHsv, jsRem, hc]

/-- C9 (amended): for endpoint hues in `[0, 360)` and `t` in the documented
`[0, 1]` range, `lerpHsv` takes the shorter circular path: the wrapped
delta has magnitude at most 180, the output hue differs from
`a.hue + delta·t` by a multiple of 360 and lies in `[0, 360)`, and in
particular `lerpHsv([350,1,1], [10,1,1], 0.5)` has hue exactly 0. -/
theorem c9_lerpHsv_shortest_path (a b : hsvColor) (t : ℚ)
    (ha0 : 0 ≤ a.1) (ha1 : a.1 < 360) (hb0 : 0 ≤ b.1) (hb1 : b.1 < 360)
    (ht0 : 0 ≤ t) (ht1 : t ≤ 1) :
    |wrappedHueDelta a.1 b.1| ≤ 180 ∧
    (∃ k : ℤ, (lerpHsv a b t).1 =
      a.1 + wrappedHueDelta a.1 b.1 * t + 360 * k) ∧
    0 ≤ (lerpHsv a b t).1 ∧ (lerpHsv a b t).1 < 360 ∧
    lerpHsv (350, 1, 1) (10, 1, 1) (1 / 2) = (0, 1, 1) := by
  obtain ⟨ha, sa, va⟩ := a
  obtain ⟨hb, sb, vb⟩ := b
  simp only at ha0 ha1 hb0 hb1
  have hdelta : |wrappedHueDelta ha hb| ≤ 180 := by
    simp only [wrappedHueDelta]
    split_ifs with h1 h2 h2 <;> rw [abs_le] <;> constructor <;> linarith
  have hd1 : -(180 : ℚ) ≤ wrappedHueDelta ha hb := (abs_le.mp hdelta).1
  have hd2 : wrappedHueDelta ha hb ≤ 180 := (abs_le.mp hdelta).2
  have hprod : 0 ≤ (wrappedHueDelta ha hb + 180) * t :=
    mul_nonneg (by linarith) ht0
  have hx0 : 0 ≤ ha + wrappedHueDelta ha hb * t + 360 := by nlinarith
  have hhue : (lerpHsv (ha, sa, va) (hb, sb, vb) t).1 =
      jsRem (ha + wrappedHueDelta ha hb * t + 360) 360 := rfl
  have hq : (0 : ℚ) ≤ (ha + wrappedHueDelta ha hb * t + 360) / 360 :=
    div_nonneg hx0 (by norm_num)
  have hfr0 := Int.fract_nonneg ((ha + wrappedHueDelta ha hb * t + 360) / 360)
  have hfr1 := Int.fract_lt_one ((ha + wrappedHueDelta ha hb * t + 360) / 360)
  rw [Int.fract] at hfr0 hfr1
  refine ⟨hdelta, ?_, ?_, ?_, ?_⟩
  · refine ⟨1 - ⌊(ha + wrappedHueDelta ha hb * t + 360) / 360⌋, ?_⟩
    rw [hhue]
    simp only [jsRem]
    rw [if_pos hq]
    push_cast
    ring
  · rw [hhue]
    simp only [jsRem]
    rw [if_pos hq]
    linarith
  · rw [hhue]
    simp only [jsRem]
    rw [if_pos hq]
    linarith
  · norm_num [lerpHsv, jsRem]

/-- C9 witness: the spec's own example `lerpHsv([350,1,1],[10,1,1],0.5)`
satisfies every hypothesis of the amended theorem and its hue lands at 0
inside `[0, 360)`. -/
theorem c9_lerpHsv_shortest_path_witness :
    0 ≤ ((350 : ℚ), (1 : ℚ), (1 : ℚ)).1 ∧
    ((350 : ℚ), (1 : ℚ), (1 : ℚ)).1 < 360 ∧
    0 ≤ ((10 : ℚ), (1 : ℚ), (1 : ℚ)).1 ∧
    ((10 : ℚ), (1 : ℚ), (1 : ℚ)).1 < 360 ∧
    (0 : ℚ) ≤ 1 / 2 ∧ (1 / 2 : ℚ) ≤ 1 ∧
    0 ≤ (lerpHsv (350, 1, 1) (10, 1, 1) (1 / 2)).1 ∧
    (lerpHsv (350, 1, 1) (10, 1, 1) (1 / 2)).1 < 360 ∧
    lerpHsv (350, 1, 1) (10, 1, 1) (1 / 2) = (0, 1, 1) := by
  have h := c9_lerpHsv_shortest_path (350, 1, 1) (10, 1, 1) (1 / 2)
    (by norm_num) (by norm_num) (by norm_num) (by norm_num)
    (by norm_num) (by norm_num)
  exact ⟨by norm_num, by norm_num, by norm_num, by norm_num, by norm_num,
    by norm_num, h.2.2.1, h.2.2.2.1, h.2.2.2.2⟩

/-- With `out` aliased to `a`, `quatSlerp` overwrites `a` with `±b` before
reading it back, so at `a = (0,0,0,1)`, `b = (0.01,0,0,-0.9999)`, `t = 0`
the aliased call's first component is negative. -/
theorem quatSlerpOutA_first_component_neg :
    (quatSlerpOutA (0, 0, 0, 1) (0.01, 0, 0, -0.9999) 0).1 < 0 := by
  have h4 : Real.sqrt (100000000 : ℝ) = 10000 := by
    rw [show (100000000 : ℝ) = 10000 ^ 2 by norm_num,
      Real.sqrt_sq (by norm_num)]
  have hgt : EPSILON < Real.sqrt 99990001 / Real.sqrt 100000000 := by
    rw [h4, lt_div_iff₀ (by norm_num : (0 : ℝ) < 10000)]
    rw [show (EPSILON * 10000 : ℝ) = 0.01 by norm_num [EPSILON]]
    rw [show (0.01 : ℝ) = Real.sqrt (0.01 ^ 2) by
      rw [Real.sqrt_sq (by norm_num)]]
    exact Real.sqrt_lt_sqrt (by norm_num) (by norm_num)
  have hdpos : (0 : ℝ) < Real.sqrt 99990001 / Real.sqrt 100000000 := by
    rw [h4]
    positivity
  simp only [quatSlerpOutA]
  norm_num [hgt]
  exact div_neg_of_neg_of_pos (by norm_num) hdpos

/-- The fresh-output slerp at the same input returns the first operand
(here the identity quaternion), whose first component is zero. -/
theorem quatSlerp_fresh_at_mismatch_input :
    quatSlerp (0, 0, 0, 1) (0.01, 0, 0, -0.9999) 0 = (0, 0, 0, 1) := by
  simp only [quatSlerp]
  norm_num [EPSILON]

/-- C8 (counterexample): `quatSlerp` with `out` aliased to `a` does *not*
agree with the fresh-output call: at `a = (0,0,0,1)`,
`b = (0.01,0,0,-0.9999)`, `t = 0` the source stores `-b` into `out` (= `a`)
before reading `a`, so the aliased result is `normalize(-b)` (first
component negative) while the fresh result is `a` (first component 0). -/
theorem c8_counterexample_quatSlerp_aliasing :
    quatSlerpOutA (0, 0, 0, 1) (0.01, 0, 0, -0.9999) 0 ≠
      quatSlerp (0, 0, 0, 1) (0.01, 0, 0, -0.9999) 0 := by
  intro h
  have h1 := congrArg Prod.fst h
  rw [quatSlerp_fresh_at_mismatch_input] at h1
  have h2 := quatSlerpOutA_first_component_neg
  rw [h1] at h2
  norm_num at h2

/-- C8 (amended): `basisTranspose` honors the aliasing discipline — the
`out === b` in-place path produces exactly the fresh-output transpose for
every basis — but `quatSlerp` does not: it writes `±b` into `out` before
reading `a`, and with `out` aliased to `a` it returns a different
quaternion (exhibited at `a = (0,0,0,1)`, `b = (0.01,0,0,-0.9999)`,
`t = 0`). -/
theorem c8_aliasing_discipline_amended (b : basis) :
    basisTransposeAliased b = basisTranspose b ∧
    quatSlerpOutA (0, 0, 0, 1) (0.01, 0, 0, -0.9999) 0 ≠
      quatSlerp (0, 0, 0, 1) (0.01, 0, 0, -0.9999) 0 := by
  constructor
  · obtain ⟨c0, c1, c2, c3, c4, c5, c6, c7, c8⟩ := b
    rfl
  · intro h
    have h1 := congrArg Prod.fst h
    rw [quatSlerp_fresh_at_mismatch_input] at h1
    have h2 := quatSlerpOutA_first_component_neg
    rw [h1] at h2
    norm_num at h2

/-- Four-dimensional Cauchy–Schwarz for the stored dot product. -/
theorem quatDot_sq_le (a b : quat) :
    quatDot a b ^ 2 ≤ quatLengthSq a * quatLengthSq b := by
  obtain ⟨a0, a1, a2, a3⟩ := a
  obtain ⟨b0, b1, b2, b3⟩ := b
  simp only [quatDot, quatLengthSq]
  nlinarith [sq_nonneg (a0 * b1 - a1 * b0), sq_nonneg (a0 * b2 - a2 * b0),
    sq_nonneg (a0 * b3 - a3 * b0), sq_nonneg (a1 * b2 - a2 * b1),
    sq_nonneg (a1 * b3 - a3 * b1), sq_nonneg (a2 * b3 - a3 * b2)]

/-- A quaternion of length 1 has squared length 1. -/
theorem quatLengthSq_eq_one (q : quat) (h : quatLength q = 1) :
    quatLengthSq q = 1 := by
  obtain ⟨q0, q1, q2, q3⟩ := q
  simp only [quatLength] at h
  simp only [quatLengthSq]
  exact Real.sqrt_eq_one.mp h

/-- Negation preserves the squared length. -/
theorem quatLengthSq_negate (q : quat) :
    quatLengthSq (quatNegate q) = quatLengthSq q := by
  obtain ⟨q0, q1, q2, q3⟩ := q
  simp only [quatLengthSq, quatNegate]
  ring

/-- Negating the right operand negates the dot product. -/
theorem quatDot_negate_right (a b : quat) :
    quatDot a (quatNegate b) = -quatDot a b := by
  obtain ⟨a0, a1, a2, a3⟩ := a
  obtain ⟨b0, b1, b2, b3⟩ := b
  simp only [quatDot, quatNegate]
  ring

/-- Dividing a nonzero 4-vector by the square root of its squared length
yields a quaternion of length exactly 1. -/
theorem quatLength_div_sqrt (x0 x1 x2 x3 : ℝ)
    (h : 0 < x0 * x0 + x1 * x1 + x2 * x2 + x3 * x3) :
    Real.sqrt
      (x0 / Real.sqrt (x0 * x0 + x1 * x1 + x2 * x2 + x3 * x3) *
        (x0 / Real.sqrt (x0 * x0 + x1 * x1 + x2 * x2 + x3 * x3)) +
      x1 / Real.sqrt (x0 * x0 + x1 * x1 + x2 * x2 + x3 * x3) *
        (x1 / Real.sqrt (x0 * x0 + x1 * x1 + x2 * x2 + x3 * x3)) +
      x2 / Real.sqrt (x0 * x0 + x1 * x1 + x2 * x2 + x3 * x3) *
        (x2 / Real.sqrt (x0 * x0 + x1 * x1 + x2 * x2 + x3 * x3)) +
      x3 / Real.sqrt (x0 * x0 + x1 * x1 + x2 * x2 + x3 * x3) *
        (x3 / Real.sqrt (x0 * x0 + x1 * x1 + x2 * x2 + x3 * x3))) = 1 := by
  rw [div_mul_div_comm, div_mul_div_comm, div_mul_div_comm, div_mul_div_comm,
    div_add_div_same, div_add_div_same, div_add_div_same,
    Real.mul_self_sqrt h.le, div_self h.ne']
  exact Real.sqrt_one

/-- For unit quaternions whose dot product exceeds 0.9995, the lerp of the
components has squared length at least 0.99975, so `quatLerp` takes its
normalizing branch and returns a unit quaternion. -/
theorem quatLerp_unit_length (a b : quat) (t : ℝ)
    (ha : quatLengthSq a = 1) (hb : quatLengthSq b = 1)
    (hdot : 0.9995 < quatDot a b) :
    quatLength (quatLerp a b t) = 1 := by
  obtain ⟨a0, a1, a2, a3⟩ := a
  obtain ⟨b0, b1, b2, b3⟩ := b
  have hcs := quatDot_sq_le (a0, a1, a2, a3) (b0, b1, b2, b3)
  simp only [quatLengthSq] at ha hb
  simp only [quatDot] at hdot
  simp only [quatDot, quatLengthSq] at hcs
  have hD1 : a0 * b0 + a1 * b1 + a2 * b2 + a3 * b3 ≤ 1 := by nlinarith
  have hu : t * (1 - t) ≤ 1 / 4 := by nlinarith [sq_nonneg (2 * t - 1)]
  have hEeq : (a0 + t * (b0 - a0)) * (a0 + t * (b0 - a0)) +
      (a1 + t * (b1 - a1)) * (a1 + t * (b1 - a1)) +
      (a2 + t * (b2 - a2)) * (a2 + t * (b2 - a2)) +
      (a3 + t * (b3 - a3)) * (a3 + t * (b3 - a3)) =
      1 - 2 * (t * (1 - t)) *
        (1 - (a0 * b0 + a1 * b1 + a2 * b2 + a3 * b3)) := by
    linear_combination (1 - t) ^ 2 * ha + t ^ 2 * hb
  have hE : (0.99975 : ℝ) ≤ (a0 + t * (b0 - a0)) * (a0 + t * (b0 - a0)) +
      (a1 + t * (b1 - a1)) * (a1 + t * (b1 - a1)) +
      (a2 + t * (b2 - a2)) * (a2 + t * (b2 - a2)) +
      (a3 + t * (b3 - a3)) * (a3 + t * (b3 - a3)) := by
    rw [hEeq]
    nlinarith [mul_nonneg (sub_nonneg.mpr hu) (sub_nonneg.mpr hD1)]
  have heps : (EPSILON : ℝ) ^ 2 <
      (a0 + t * (b0 - a0)) * (a0 + t * (b0 - a0)) +
      (a1 + t * (b1 - a1)) * (a1 + t * (b1 - a1)) +
      (a2 + t * (b2 - a2)) * (a2 + t * (b2 - a2)) +
      (a3 + t * (b3 - a3)) * (a3 + t * (b3 - a3)) := by
    have h12 : (EPSILON : ℝ) ^ 2 = 0.000000000001 := by norm_num [EPSILON]
    rw [h12]
    linarith [hE]
  have hlen : Real.sqrt ((a0 + t * (b0 - a0)) * (a0 + t * (b0 - a0)) +
      (a1 + t * (b1 - a1)) * (a1 + t * (b1 - a1)) +
      (a2 + t * (b2 - a2)) * (a2 + t * (b2 - a2)) +
      (a3 + t * (b3 - a3)) * (a3 + t * (b3 - a3))) > EPSILON := by
    rw [show (EPSILON : ℝ) = Real.sqrt (EPSILON ^ 2) by
      rw [Real.sqrt_sq (by norm_num [EPSILON])]]
    exact Real.sqrt_lt_sqrt (by positivity) heps
  simp only [quatLerp]
  rw [if_pos hlen]
  simp only [quatLength]
  exact quatLength_div_sqrt _ _ _ _ (by linarith [hE])

/-- When the dot product is negative, slerping against `b` equals slerping
against `-b` (the source folds the negation into its `out := ±b` copy). -/
theorem quatSlerp_neg_of_dot_neg (a b : quat) (t : ℝ)
    (hd : quatDot a b < 0) :
    quatSlerp a b t = quatSlerp a (quatNegate b) t := by
  obtain ⟨a0, a1, a2, a3⟩ := a
  obtain ⟨b0, b1, b2, b3⟩ := b
  simp only [quatDot] at hd
  simp only [quatSlerp, quatNegate]
  rw [show a0 * -b0 + a1 * -b1 + a2 * -b2 + a3 * -b3 =
    -(a0 * b0 + a1 * b1 + a2 * b2 + a3 * b3) by ring]
  simp only [if_pos hd, if_neg (not_lt.mpr (le_of_lt (neg_pos.mpr hd)))]

/-- When `|dot| > 0.9995`, `quatSlerp` is exactly `quatLerp` against the
sign-corrected second operand (the normalized-lerp fallback). -/
theorem quatSlerp_nlerp_of_abs_dot (a b : quat) (t : ℝ)
    (habs : |quatDot a b| > 0.9995) :
    quatSlerp a b t =
      quatLerp a (if quatDot a b < 0 then quatNegate b else b) t := by
  obtain ⟨a0, a1, a2, a3⟩ := a
  obtain ⟨b0, b1, b2, b3⟩ := b
  rcases lt_or_ge (quatDot (a0, a1, a2, a3) (b0, b1, b2, b3)) 0 with hD | hD
  · rw [if_pos hD]
    simp only [quatDot] at hD habs
    have habs' : -(a0 * b0 + a1 * b1 + a2 * b2 + a3 * b3) > 0.9995 := by
      rwa [abs_of_neg hD] at habs
    simp only [quatSlerp, quatLerp, quatNegate]
    simp only [if_pos hD, if_pos habs']
  · rw [if_neg (not_lt.mpr hD)]
    simp only [quatDot] at hD habs
    have habs' : a0 * b0 + a1 * b1 + a2 * b2 + a3 * b3 > 0.9995 := by
      rwa [abs_of_nonneg hD] at habs
    simp only [quatSlerp, quatLerp]
    simp only [if_neg (not_lt.mpr hD), if_pos habs']

/-- C1: for unit quaternions, `quatSlerp` takes the shorter arc — a
negative dot product is equivalent to negating the second operand; when
`|dot| > 0.9995` the result is exactly the componentwise lerp against the
sign-corrected operand, renormalized to unit length; and `basisSlerp` is
`quatSlerp` on the converted quaternions followed by `basisFromQuat`. -/
theorem c1_slerp_shortest_arc (a b : quat) (t : ℝ)
    (ha : quatLength a = 1) (hb : quatLength b = 1) :
    (quatDot a b < 0 → quatSlerp a b t = quatSlerp a (quatNegate b) t) ∧
    (|quatDot a b| > 0.9995 →
      quatSlerp a b t =
        quatLerp a (if quatDot a b < 0 then quatNegate b else b) t ∧
      quatLength (quatSlerp a b t) = 1) ∧
    (∀ (out p q : basis) (s : ℝ),
      (basisSlerp out p q s).1 =
        basisFromQuat (quatSlerp (basisToQuat p) (basisToQuat q) s)) := by
  refine ⟨fun hd => quatSlerp_neg_of_dot_neg a b t hd,
    fun habs => ⟨quatSlerp_nlerp_of_abs_dot a b t habs, ?_⟩, ?_⟩
  · have ha' := quatLengthSq_eq_one a ha
    have hb' := quatLengthSq_eq_one b hb
    rw [quatSlerp_nlerp_of_abs_dot a b t habs]
    rcases lt_or_ge (quatDot a b) 0 with hD | hD
    · rw [if_pos hD]
      apply quatLerp_unit_length a (quatNegate b) t ha'
        (by rw [quatLengthSq_negate]; exact hb')
      rw [quatDot_negate_right]
      have habs' : |quatDot a b| = -quatDot a b := abs_of_neg hD
      linarith [habs]
    · rw [if_neg (not_lt.mpr hD)]
      apply quatLerp_unit_length a b t ha' hb'
      have habs' : |quatDot a b| = quatDot a b := abs_of_nonneg hD
      linarith [habs]
  · intro out p q s
    simp only [basisSlerp, quatSlerp]
    split_ifs <;> rfl

/-- C1 witness: the unit quaternions `(0,0,0,1)` and `(0,0,0,-1)` have a
negative dot product of magnitude above 0.9995, and the theorem's negation
and renormalization conclusions hold there. -/
theorem c1_slerp_shortest_arc_witness :
    quatLength ((0 : ℝ), 0, 0, 1) = 1 ∧
    quatLength ((0 : ℝ), 0, 0, -1) = 1 ∧
    quatDot ((0 : ℝ), 0, 0, 1) ((0 : ℝ), 0, 0, -1) < 0 ∧
    |quatDot ((0 : ℝ), 0, 0, 1) ((0 : ℝ), 0, 0, -1)| > 0.9995 ∧
    quatSlerp ((0 : ℝ), 0, 0, 1) ((0 : ℝ), 0, 0, -1) (1 / 2) =
      quatSlerp ((0 : ℝ), 0, 0, 1) (quatNegate ((0 : ℝ), 0, 0, -1)) (1 / 2) ∧
    quatLength (quatSlerp ((0 : ℝ), 0, 0, 1) ((0 : ℝ), 0, 0, -1) (1 / 2)) =
      1 := by
  have ha : quatLength ((0 : ℝ), 0, 0, 1) = 1 := by norm_num [quatLength]
  have hb : quatLength ((0 : ℝ), 0, 0, -1) = 1 := by norm_num [quatLength]
  have hd : quatDot ((0 : ℝ), 0, 0, 1) ((0 : ℝ), 0, 0, -1) < 0 := by
    norm_num [quatDot]
  have habs : |quatDot ((0 : ℝ), 0, 0, 1) ((0 : ℝ), 0, 0, -1)| > 0.9995 := by
    norm_num [quatDot]
  have h := c1_slerp_shortest_arc (0, 0, 0, 1) (0, 0, 0, -1) (1 / 2) ha hb
  exact ⟨ha, hb, hd, habs, h.1 hd, (h.2.1 habs).2⟩

/-- The dot product of two unit quaternions lies in `[-1, 1]`. -/
theorem quatDot_le_bounds (a b : quat) (ha : quatLengthSq a = 1)
    (hb : quatLengthSq b = 1) :
    -1 ≤ quatDot a b ∧ quatDot a b ≤ 1 := by
  have h := quatDot_sq_le a b
  rw [ha, hb] at h
  constructor <;> nlinarith

/-- Slerp at `t = 0` returns the first unit operand exactly, in every
branch of the algorithm. -/
theorem quatSlerp_zero (a b : quat) (ha : quatLength a = 1) :
    quatSlerp a b 0 = a := by
  obtain ⟨a0, a1, a2, a3⟩ := a
  obtain ⟨b0, b1, b2, b3⟩ := b
  simp only [quatLength] at ha
  simp only [quatSlerp]
  split_ifs with h1 h2 h3 <;>
    simp only [zero_mul, add_zero, mul_zero, Real.sin_zero, Real.cos_zero,
      zero_div, sub_zero, one_mul] <;>
  · first
    | rfl
    | (rw [ha]; simp [div_one])

/-- Slerp at `t = 1` returns the second unit operand up to the sign fixed
by the shorter-arc test: `b` when the dot product is nonnegative and `-b`
when it is negative. -/
theorem quatSlerp_one (a b : quat) (ha : quatLength a = 1)
    (hb : quatLength b = 1) :
    quatSlerp a b 1 = (if quatDot a b < 0 then quatNegate b else b) := by
  have hD := quatDot_le_bounds a b (quatLengthSq_eq_one a ha)
    (quatLengthSq_eq_one b hb)
  obtain ⟨a0, a1, a2, a3⟩ := a
  obtain ⟨b0, b1, b2, b3⟩ := b
  simp only [quatDot] at hD
  simp only [quatLength] at hb
  simp only [quatSlerp, quatDot, quatNegate]
  split_ifs with h1 h2 h3
  · rw [show a0 + 1 * (-b0 - a0) = -b0 from by ring,
      show a1 + 1 * (-b1 - a1) = -b1 from by ring,
      show a2 + 1 * (-b2 - a2) = -b2 from by ring,
      show a3 + 1 * (-b3 - a3) = -b3 from by ring,
      show -b0 * -b0 + -b1 * -b1 + -b2 * -b2 + -b3 * -b3 =
        b0 * b0 + b1 * b1 + b2 * b2 + b3 * b3 from by ring, hb]
    simp [div_one]
  · rw [show a0 + 1 * (-b0 - a0) = -b0 from by ring,
      show a1 + 1 * (-b1 - a1) = -b1 from by ring,
      show a2 + 1 * (-b2 - a2) = -b2 from by ring,
      show a3 + 1 * (-b3 - a3) = -b3 from by ring]
  · rw [abs_of_pos (neg_pos.mpr h1), mul_one]
    have hsin : Real.sin (Real.arccos
        (-(a0 * b0 + a1 * b1 + a2 * b2 + a3 * b3))) ≠ 0 := by
      rw [Real.sin_arccos]
      apply ne_of_gt
      apply Real.sqrt_pos.mpr
      have h2' : -(a0 * b0 + a1 * b1 + a2 * b2 + a3 * b3) ≤ 0.9995 :=
        not_lt.mp h2
      nlinarith [h1, h2', hD.1]
    have hcos : Real.cos (Real.arccos
        (-(a0 * b0 + a1 * b1 + a2 * b2 + a3 * b3))) =
        -(a0 * b0 + a1 * b1 + a2 * b2 + a3 * b3) :=
      Real.cos_arccos (by linarith [hD.2]) (by linarith [hD.1])
    rw [hcos, mul_div_assoc]
    simp only [div_self hsin, mul_one, sub_self, zero_mul, one_mul, zero_add]
  · rw [show a0 + 1 * (b0 - a0) = b0 from by ring,
      show a1 + 1 * (b1 - a1) = b1 from by ring,
      show a2 + 1 * (b2 - a2) = b2 from by ring,
      show a3 + 1 * (b3 - a3) = b3 from by ring, hb]
    simp [div_one]
  · rw [show a0 + 1 * (b0 - a0) = b0 from by ring,
      show a1 + 1 * (b1 - a1) = b1 from by ring,
      show a2 + 1 * (b2 - a2) = b2 from by ring,
      show a3 + 1 * (b3 - a3) = b3 from by ring]
  · rename_i h2
    rw [abs_of_nonneg (not_lt.mp h1), mul_one]
    have hsin : Real.sin (Real.arccos
        (a0 * b0 + a1 * b1 + a2 * b2 + a3 * b3)) ≠ 0 := by
      rw [Real.sin_arccos]
      apply ne_of_gt
      apply Real.sqrt_pos.mpr
      have h2' : a0 * b0 + a1 * b1 + a2 * b2 + a3 * b3 ≤ 0.9995 :=
        not_lt.mp h2
      nlinarith [not_lt.mp h1, h2']
    have hcos : Real.cos (Real.arccos
        (a0 * b0 + a1 * b1 + a2 * b2 + a3 * b3)) =
        a0 * b0 + a1 * b1 + a2 * b2 + a3 * b3 :=
      Real.cos_arccos (by linarith [hD.1]) (by linarith [hD.2])
    rw [hcos, mul_div_assoc]
    simp only [div_self hsin, mul_one, sub_self, zero_mul, one_mul, zero_add]

/-- Lerp `quatLerp` at `t = 0` returns the first operand when it is unit length
(the renormalization divides by 1). -/
theorem quatLerp_zero (a b : quat) (ha : quatLength a = 1) :
    quatLerp a b 0 = a := by
  obtain ⟨a0, a1, a2, a3⟩ := a
  obtain ⟨b0, b1, b2, b3⟩ := b
  simp only [quatLength] at ha
  simp only [quatLerp, zero_mul, add_zero]
  rw [ha, if_pos (show (1 : ℝ) > EPSILON by norm_num [EPSILON])]
  simp [div_one]

/-- Lerp `quatLerp` at `t = 1` returns the second operand when it is unit
length. -/
theorem quatLerp_one (a b : quat) (hb : quatLength b = 1) :
    quatLerp a b 1 = b := by
  obtain ⟨a0, a1, a2, a3⟩ := a
  obtain ⟨b0, b1, b2, b3⟩ := b
  simp only [quatLength] at hb
  simp only [quatLerp]
  rw [show a0 + 1 * (b0 - a0) = b0 from by ring,
    show a1 + 1 * (b1 - a1) = b1 from by ring,
    show a2 + 1 * (b2 - a2) = b2 from by ring,
    show a3 + 1 * (b3 - a3) = b3 from by ring, hb,
    if_pos (show (1 : ℝ) > EPSILON by norm_num [EPSILON])]
  simp [div_one]

/-- Evaluating `basisToQuat` on the rotation basis `[1,0,0, 0,0.28,0.96, 0,-0.96,0.28]`
(rotation about X built from the quaternion `(0.6,0,0,0.8)`) extracts the
*conjugate* quaternion `(-0.6,0,0,0.8)`: the two conversion directions use
mutually transposed layouts. -/
theorem basisToQuat_bEx :
    basisToQuat (1, 0, 0, 0, 0.28, 0.96, 0, -0.96, 0.28) =
      ((-0.6 : ℝ), 0, 0, 0.8) := by
  simp only [basisToQuat]
  rw [if_pos (show (1 : ℝ) + 0.28 + 0.28 > 0 by norm_num)]
  rw [show Real.sqrt ((1 : ℝ) + 0.28 + 0.28 + 1.0) = 1.6 from by
    rw [show (1 : ℝ) + 0.28 + 0.28 + 1.0 = 1.6 ^ 2 by norm_num]
    exact Real.sqrt_sq (by norm_num)]
  norm_num [Prod.mk.injEq]

/-- C5 (counterexample): the boundary law `lerp(a, b, 0) = a` fails for
non-unit quaternions — `quatLerp` renormalizes, so at `a = b = (0,0,0,2)`
and `t = 0` it returns the identity quaternion `(0,0,0,1)`, not `a`. -/
theorem c5_counterexample_quatLerp_boundary :
    quatLerp ((0 : ℝ), 0, 0, 2) ((0 : ℝ), 0, 0, 2) 0 ≠ ((0 : ℝ), 0, 0, 2) := by
  have h4 : Real.sqrt (4 : ℝ) = 2 := by
    rw [show (4 : ℝ) = 2 ^ 2 by norm_num]
    exact Real.sqrt_sq (by norm_num)
  simp only [quatLerp, zero_mul, add_zero, mul_zero, sub_self,
    mul_zero, add_zero, zero_add]
  norm_num [h4, EPSILON, Prod.mk.injEq]

/-- C5 (amended): the boundary laws hold exactly for `vec3Lerp` on every
pair of vectors; for *unit* quaternions `quatLerp` satisfies both laws and
`quatSlerp` returns `a` at `t = 0` but returns `-b` (not `b`) at `t = 1`
whenever the dot product is negative; for bases the laws fail: at `t = 0`
both `basisLerp` and `basisSlerp` return the *transpose* of the rotation
basis `[1,0,0, 0,0.28,0.96, 0,-0.96,0.28]`, because `basisToQuat` and
`basisFromQuat` use mutually transposed conventions. -/
theorem c5_interpolation_boundary (a3 b3 : vec3) (a b : quat)
    (ha : quatLength a = 1) (hb : quatLength b = 1) :
    (vec3Lerp a3 b3 0 = a3 ∧ vec3Lerp a3 b3 1 = b3) ∧
    (quatLerp a b 0 = a ∧ quatLerp a b 1 = b) ∧
    (quatSlerp a b 0 = a ∧
      quatSlerp a b 1 = (if quatDot a b < 0 then quatNegate b else b)) ∧
    ((basisLerp basisIdentity (1, 0, 0, 0, 0.28, 0.96, 0, -0.96, 0.28)
        (1, 0, 0, 0, 0.28, 0.96, 0, -0.96, 0.28) 0).1 =
      basisTranspose (1, 0, 0, 0, 0.28, 0.96, 0, -0.96, 0.28) ∧
     (basisSlerp basisIdentity (1, 0, 0, 0, 0.28, 0.96, 0, -0.96, 0.28)
        (1, 0, 0, 0, 0.28, 0.96, 0, -0.96, 0.28) 0).1 =
      basisTranspose (1, 0, 0, 0, 0.28, 0.96, 0, -0.96, 0.28) ∧
     (basisLerp basisIdentity (1, 0, 0, 0, 0.28, 0.96, 0, -0.96, 0.28)
        (1, 0, 0, 0, 0.28, 0.96, 0, -0.96, 0.28) 0).1 ≠
      (1, 0, 0, 0, 0.28, 0.96, 0, -0.96, 0.28)) := by
  have hlerp : (basisLerp basisIdentity
      (1, 0, 0, 0, 0.28, 0.96, 0, -0.96, 0.28)
      (1, 0, 0, 0, 0.28, 0.96, 0, -0.96, 0.28) 0).1 =
      basisFromQuat ((-0.6 : ℝ), 0, 0, 0.8) := by
    simp only [basisLerp, basisToQuat_bEx, zero_mul, add_zero, mul_zero]
    rw [show (-0.6 : ℝ) * -0.6 + 0.8 * 0.8 = 1 by norm_num,
      Real.sqrt_one, if_pos (show (1 : ℝ) > EPSILON by norm_num [EPSILON])]
    norm_num
  have hslerp : (basisSlerp basisIdentity
      (1, 0, 0, 0, 0.28, 0.96, 0, -0.96, 0.28)
      (1, 0, 0, 0, 0.28, 0.96, 0, -0.96, 0.28) 0).1 =
      basisFromQuat ((-0.6 : ℝ), 0, 0, 0.8) := by
    simp only [basisSlerp, basisToQuat_bEx]
    rw [show (-0.6 : ℝ) * -0.6 + 0 * 0 + 0 * 0 + 0.8 * 0.8 = 1 by norm_num]
    simp only [if_neg (show ¬((1 : ℝ) < 0) by norm_num)]
    rw [if_pos (show (1 : ℝ) > 0.9995 by norm_num)]
    simp only [zero_mul, add_zero, mul_zero]
    rw [show (-0.6 : ℝ) * -0.6 + 0.8 * 0.8 = 1 by norm_num,
      Real.sqrt_one, if_pos (show (1 : ℝ) > EPSILON by norm_num [EPSILON])]
    norm_num
  refine ⟨⟨?_, ?_⟩,
    ⟨quatLerp_zero a b ha, quatLerp_one a b hb⟩,
    ⟨quatSlerp_zero a b ha, quatSlerp_one a b ha hb⟩, ?_, ?_, ?_⟩
  · obtain ⟨x0, x1, x2⟩ := a3
    obtain ⟨y0, y1, y2⟩ := b3
    simp only [vec3Lerp, vec3Sub, vec3Mul, vec3Add, Prod.mk.injEq]
    refine ⟨by ring, by ring, by ring⟩
  · obtain ⟨x0, x1, x2⟩ := a3
    obtain ⟨y0, y1, y2⟩ := b3
    simp only [vec3Lerp, vec3Sub, vec3Mul, vec3Add, Prod.mk.injEq]
    refine ⟨by ring, by ring, by ring⟩
  · rw [hlerp]
    simp only [basisFromQuat, basisTranspose]
    norm_num [Prod.mk.injEq]
  · rw [hslerp]
    simp only [basisFromQuat, basisTranspose]
    norm_num [Prod.mk.injEq]
  · rw [hlerp]
    simp only [basisFromQuat]
    norm_num [Prod.mk.injEq]

/-- C5 witness: at the unit quaternions `(0,0,0,1)` and `(0.6,0.8,0,0)`
(dot product 0) and arbitrary concrete vectors, the boundary conclusions
hold, in particular `quatSlerp` at `t = 1` returns `b` itself. -/
theorem c5_interpolation_boundary_witness :
    quatLength ((0 : ℝ), 0, 0, 1) = 1 ∧
    quatLength ((0.6 : ℝ), 0.8, 0, 0) = 1 ∧
    vec3Lerp ((1 : ℝ), 2, 3) ((4 : ℝ), 5, 6) 0 = ((1 : ℝ), 2, 3) ∧
    quatLerp ((0 : ℝ), 0, 0, 1) ((0.6 : ℝ), 0.8, 0, 0) 1 =
      ((0.6 : ℝ), 0.8, 0, 0) ∧
    quatSlerp ((0 : ℝ), 0, 0, 1) ((0.6 : ℝ), 0.8, 0, 0) 0 =
      ((0 : ℝ), 0, 0, 1) := by
  have ha : quatLength ((0 : ℝ), 0, 0, 1) = 1 := by norm_num [quatLength]
  have hb : quatLength ((0.6 : ℝ), 0.8, 0, 0) = 1 := by norm_num [quatLength]
  have h := c5_interpolation_boundary ((1 : ℝ), 2, 3) ((4 : ℝ), 5, 6)
    ((0 : ℝ), 0, 0, 1) ((0.6 : ℝ), 0.8, 0, 0) ha hb
  exact ⟨ha, hb, h.1.1, h.2.1.2, h.2.2.1.1⟩
